import Mathlib

/-!
Verification development for the realism-effects temporal-reprojection and
denoising pipeline.  The definitions below are a shallow embedding of
`src/SSGI/pass/DenoisePass.js` (which contains both the `DenoisePass` and the
`TemporalResolvePass` classes) and of
`src/ssgi/temporal-resolve/pass/VelocityPass.js`.

GPU texture objects are modelled as identity tokens; a renderer draw call is
modelled as a trace event recording the buffer slots it reads and writes.
The shader arithmetic itself runs on the GPU and is outside the embedded
state, so draw events carry only data-flow information (which is what the
claims under verification are about).
-/

/-! ### DenoisePass (src/SSGI/pass/DenoisePass.js, class DenoisePass)

Textures that can appear in the denoiser's `inputTexture` uniform: some
externally supplied texture, or one of the pass's two ping-pong render-target
textures. -/

inductive DTex where
  | ext (id : Nat)
  | texA
  | texB
deriving DecidableEq, Repr

/-- The two ping-pong render targets `renderTargetA` / `renderTargetB`. -/
inductive RTag where
  | A
  | B
deriving DecidableEq, Repr

/-- One half-pass as issued to the renderer: the values of the `horizontal`
and `stepSize` uniforms, the texture bound to `inputTexture`, and the render
target written. -/
structure HalfPass where
  horizontal : Bool
  stepSize : Nat
  input : DTex
  target : RTag
deriving DecidableEq, Repr

/-- The uniforms of the denoiser's fullscreen material that `render` touches. -/
structure DenoiseUniforms where
  inputTexture : DTex
  horizontal : Bool
  stepSize : Nat
deriving DecidableEq, Repr

/-- Body of the `for` loop of `DenoisePass.render` (lines 60-76): one
iteration `i`, carrying the local `stepSize` variable `s`.  Returns the
uniform state after the assignments together with the half-pass issued. -/
def denoiseStep (input0 : DTex) (i : Nat) (s : Nat) : DenoiseUniforms × Nat × HalfPass :=
  let horizontal : Bool := decide (i % 2 = 0)
  let s' := if horizontal then 2 ^ (i / 2) else s
  let input := if horizontal then (if i = 0 then input0 else DTex.texB) else DTex.texA
  let target := if horizontal then RTag.A else RTag.B
  (⟨input, horizontal, s'⟩, s', ⟨horizontal, s', input, target⟩)

/-- The `for (let i = 0; i < 2 * this.iterations; i++)` loop, written as a
recursion on the number `n` of remaining iterations, starting at index `i`
with carried step size `s`.  Returns the final uniforms, the final carried
step size and the list of half-passes issued. -/
def denoiseLoop (input0 : DTex) : Nat → Nat → Nat → DenoiseUniforms × Nat × List HalfPass
  | _, 0, s => (⟨input0, true, s⟩, s, [])
  | i, n + 1, s =>
    let st := denoiseStep input0 i s
    let rest := denoiseLoop input0 (i + 1) n st.2.1
    (rest.1, rest.2.1, st.2.2 :: rest.2.2)

/-- `DenoisePass.render` (lines 56-79): capture the entry value of the
`inputTexture` uniform, run `2 * iterations` half-passes, then restore the
`inputTexture` uniform (line 78).  Returns the final uniforms together with
the trace of half-passes. -/
def denoiseRender (iterations : Nat) (u : DenoiseUniforms) : DenoiseUniforms × List HalfPass :=
  let input0 := u.inputTexture
  let r := denoiseLoop input0 0 (2 * iterations) 1
  ({ r.1 with inputTexture := input0 }, r.2.2)

/-- The `texture` getter (lines 81-83): returns `renderTargetB.texture`. -/
def denoiseTextureGetter : DTex := DTex.texB

/-- Closed form of the half-pass issued at loop index `i`. -/
def denoisePassAt (input0 : DTex) (i : Nat) : HalfPass :=
  if i % 2 = 0 then
    ⟨true, 2 ^ (i / 2), if i = 0 then input0 else DTex.texB, RTag.A⟩
  else
    ⟨false, 2 ^ (i / 2), DTex.texA, RTag.B⟩

/-- Contents of the two ping-pong render targets, as abstract version
tokens. -/
def RTContents := RTag → Nat

/-- Effect of a trace of half-passes on render-target contents: each
half-pass overwrites its target with a value produced by the (abstract)
shader `upd` from the current contents and the pass description, and leaves
the other target unchanged. -/
def applyTrace (upd : RTContents → HalfPass → Nat) (c : RTContents) (tr : List HalfPass) :
    RTContents :=
  tr.foldl (fun acc p => fun rt => if rt = p.target then upd acc p else acc rt) c

theorem denoiseLoop_eq_map (input0 : DTex) :
    ∀ (n i s : Nat), (i % 2 = 1 → s = 2 ^ (i / 2)) →
      (denoiseLoop input0 i n s).2.2 = (List.range n).map (fun k => denoisePassAt input0 (i + k)) := by
  intro n
  induction n with
  | zero => intro i s _; simp [denoiseLoop]
  | succ n ih =>
    intro i s hs
    rcases Nat.even_or_odd i with he | ho
    · have h0 : i % 2 = 0 := Nat.even_iff.mp he
      have hstep : denoiseStep input0 i s =
          (⟨if i = 0 then input0 else DTex.texB, true, 2 ^ (i / 2)⟩, 2 ^ (i / 2),
            ⟨true, 2 ^ (i / 2), if i = 0 then input0 else DTex.texB, RTag.A⟩) := by
        simp [denoiseStep, h0]
      have hnext : (i + 1) % 2 = 1 → (2 : Nat) ^ (i / 2) = 2 ^ ((i + 1) / 2) := by
        intro _
        have : (i + 1) / 2 = i / 2 := by omega
        rw [this]
      have := ih (i + 1) (2 ^ (i / 2)) hnext
      simp only [denoiseLoop, hstep, this, List.range_succ_eq_map, List.map_cons, List.map_map]
      congr 1
      · simp [denoisePassAt, h0]
      · apply List.map_congr_left
        intro k _
        simp only [Function.comp]
        congr 1
        omega
    · have h1 : i % 2 = 1 := Nat.odd_iff.mp ho
      have hstep : denoiseStep input0 i s =
          (⟨DTex.texA, false, s⟩, s, ⟨false, s, DTex.texA, RTag.B⟩) := by
        simp [denoiseStep, h1]
      have hnext : (i + 1) % 2 = 1 → s = 2 ^ ((i + 1) / 2) := by omega
      have := ih (i + 1) s hnext
      simp only [denoiseLoop, hstep, this, List.range_succ_eq_map, List.map_cons, List.map_map]
      congr 1
      · simp [denoisePassAt, h1, hs h1]
      · apply List.map_congr_left
        intro k _
        simp only [Function.comp]
        congr 1
        omega

theorem denoiseRender_trace (iterations : Nat) (u : DenoiseUniforms) :
    (denoiseRender iterations u).2 =
      (List.range (2 * iterations)).map (fun k => denoisePassAt u.inputTexture k) := by
  have h := denoiseLoop_eq_map u.inputTexture (2 * iterations) 0 1 (by omega)
  simpa [denoiseRender] using h

theorem denoiseTrace_getD (iterations : Nat) (u : DenoiseUniforms) (i : Nat) (d : HalfPass)
    (h : i < 2 * iterations) :
    ((denoiseRender iterations u).2).getD i d = denoisePassAt u.inputTexture i := by
  rw [denoiseRender_trace]
  rw [List.getD_eq_getElem?_getD]
  rw [List.getElem?_eq_getElem (by simpa using h)]
  simp

/-- Claim C1: for every `iterations >= 1`, `DenoisePass.render` issues exactly
`2 * iterations` half-passes; half-pass `i` (0-based) is horizontal iff `i`
is even; and half-passes `2k` and `2k+1` both use step size `2^k`. -/
theorem c1_denoise_halfpasses (iterations : Nat) (u : DenoiseUniforms) (d : HalfPass)
    (h : 1 ≤ iterations) :
    ((denoiseRender iterations u).2).length = 2 * iterations ∧
    (∀ i, i < 2 * iterations →
      (((denoiseRender iterations u).2).getD i d).horizontal = decide (i % 2 = 0)) ∧
    (∀ k, k < iterations →
      (((denoiseRender iterations u).2).getD (2 * k) d).stepSize = 2 ^ k ∧
      (((denoiseRender iterations u).2).getD (2 * k + 1) d).stepSize = 2 ^ k) := by
  refine ⟨?_, ?_, ?_⟩
  · rw [denoiseRender_trace]; simp
  · intro i hi
    rw [denoiseTrace_getD iterations u i d hi]
    rcases Nat.even_or_odd i with he | ho
    · have h0 : i % 2 = 0 := Nat.even_iff.mp he
      simp [denoisePassAt, h0]
    · have h1 : i % 2 = 1 := Nat.odd_iff.mp ho
      simp [denoisePassAt, h1]
  · intro k hk
    constructor
    · rw [denoiseTrace_getD iterations u (2 * k) d (by omega)]
      have h0 : (2 * k) % 2 = 0 := by omega
      have hd : (2 * k) / 2 = k := by omega
      simp [denoisePassAt, h0, hd]
    · rw [denoiseTrace_getD iterations u (2 * k + 1) d (by omega)]
      have h1 : (2 * k + 1) % 2 = 1 := by omega
      have hd : (2 * k + 1) / 2 = k := by omega
      simp [denoisePassAt, h1, hd]

/-- Witness for C1 at `iterations = 2`. -/
theorem c1_denoise_halfpasses_witness :
    1 ≤ 2 ∧
    (((denoiseRender 2 ⟨DTex.ext 0, true, 1⟩).2).length = 2 * 2 ∧
    (∀ i, i < 2 * 2 →
      (((denoiseRender 2 ⟨DTex.ext 0, true, 1⟩).2).getD i ⟨true, 1, DTex.ext 0, RTag.A⟩).horizontal
        = decide (i % 2 = 0)) ∧
    (∀ k, k < 2 →
      (((denoiseRender 2 ⟨DTex.ext 0, true, 1⟩).2).getD (2 * k) ⟨true, 1, DTex.ext 0, RTag.A⟩).stepSize = 2 ^ k ∧
      (((denoiseRender 2 ⟨DTex.ext 0, true, 1⟩).2).getD (2 * k + 1) ⟨true, 1, DTex.ext 0, RTag.A⟩).stepSize = 2 ^ k)) :=
  ⟨by decide, c1_denoise_halfpasses 2 ⟨DTex.ext 0, true, 1⟩ ⟨true, 1, DTex.ext 0, RTag.A⟩ (by decide)⟩

/-- Claim C2: for every `iterations >= 1`, every horizontal half-pass writes
`renderTargetA`, reading the external input on the first half-pass and
`renderTargetB`'s texture otherwise; every vertical half-pass reads
`renderTargetA`'s texture and writes `renderTargetB`; the final half-pass
writes `renderTargetB`, which is the buffer the `texture` getter returns,
independently of the parity of `iterations`. -/
theorem c2_denoise_pingpong (iterations : Nat) (u : DenoiseUniforms) (d : HalfPass)
    (h : 1 ≤ iterations) :
    (∀ i, i < 2 * iterations → i % 2 = 0 →
      (((denoiseRender iterations u).2).getD i d).target = RTag.A ∧
      (((denoiseRender iterations u).2).getD i d).input =
        (if i = 0 then u.inputTexture else DTex.texB)) ∧
    (∀ i, i < 2 * iterations → i % 2 = 1 →
      (((denoiseRender iterations u).2).getD i d).target = RTag.B ∧
      (((denoiseRender iterations u).2).getD i d).input = DTex.texA) ∧
    (((denoiseRender iterations u).2).getD (2 * iterations - 1) d).target = RTag.B ∧
    denoiseTextureGetter = DTex.texB := by
  refine ⟨?_, ?_, ?_, rfl⟩
  · intro i hi h0
    rw [denoiseTrace_getD iterations u i d hi]
    simp [denoisePassAt, h0]
  · intro i hi h1
    rw [denoiseTrace_getD iterations u i d hi]
    simp [denoisePassAt, h1]
  · rw [denoiseTrace_getD iterations u (2 * iterations - 1) d (by omega)]
    have h1 : (2 * iterations - 1) % 2 = 1 := by omega
    simp [denoisePassAt, h1]

/-- Witness for C2 at `iterations = 3` (odd iteration count). -/
theorem c2_denoise_pingpong_witness :
    1 ≤ 3 ∧
    ((∀ i, i < 2 * 3 → i % 2 = 0 →
      (((denoiseRender 3 ⟨DTex.ext 5, true, 1⟩).2).getD i ⟨true, 1, DTex.ext 5, RTag.A⟩).target = RTag.A ∧
      (((denoiseRender 3 ⟨DTex.ext 5, true, 1⟩).2).getD i ⟨true, 1, DTex.ext 5, RTag.A⟩).input =
        (if i = 0 then (⟨DTex.ext 5, true, 1⟩ : DenoiseUniforms).inputTexture else DTex.texB)) ∧
    (∀ i, i < 2 * 3 → i % 2 = 1 →
      (((denoiseRender 3 ⟨DTex.ext 5, true, 1⟩).2).getD i ⟨true, 1, DTex.ext 5, RTag.A⟩).target = RTag.B ∧
      (((denoiseRender 3 ⟨DTex.ext 5, true, 1⟩).2).getD i ⟨true, 1, DTex.ext 5, RTag.A⟩).input = DTex.texA) ∧
    (((denoiseRender 3 ⟨DTex.ext 5, true, 1⟩).2).getD (2 * 3 - 1) ⟨true, 1, DTex.ext 5, RTag.A⟩).target = RTag.B ∧
    denoiseTextureGetter = DTex.texB) :=
  ⟨by decide, c2_denoise_pingpong 3 ⟨DTex.ext 5, true, 1⟩ ⟨true, 1, DTex.ext 5, RTag.A⟩ (by decide)⟩

/-- Claim C9: `DenoisePass.render` restores the `inputTexture` uniform to its
entry value after all half-passes complete, for every iteration count. -/
theorem c9_denoise_input_restored (iterations : Nat) (u : DenoiseUniforms) :
    ((denoiseRender iterations u).1).inputTexture = u.inputTexture := rfl

/-- Claim C10: with `iterations = 0`, `DenoisePass.render` performs zero
half-passes, so no shader `upd` ever changes the contents of either ping-pong
render target, and the `texture` getter still hands out `renderTargetB`'s
texture, whose content is whatever it held before. -/
theorem c10_denoise_zero_iterations (u : DenoiseUniforms)
    (upd : RTContents → HalfPass → Nat) (c : RTContents) :
    (denoiseRender 0 u).2 = [] ∧
    applyTrace upd c ((denoiseRender 0 u).2) = c ∧
    applyTrace upd c ((denoiseRender 0 u).2) RTag.B = c RTag.B ∧
    denoiseTextureGetter = DTex.texB :=
  ⟨rfl, rfl, rfl, rfl⟩

/-! ### VelocityPass (src/ssgi/temporal-resolve/pass/VelocityPass.js)

Materials and meshes are modelled by identity tokens plus the fields that
`VelocityPass` actually touches.  Shader-parameter bookkeeping on the
velocity material (normalScale, uvTransform, side, bone textures, defines)
configures the GPU program only and is not part of the embedded state. -/

structure Material where
  id : Nat
  visible : Bool
  depthWrite : Bool
  depthTest : Bool
deriving DecidableEq, Repr

structure Mesh where
  id : Nat
  material : Material
  visible : Bool
  ctorName : String
deriving DecidableEq, Repr

structure Scene where
  meshes : List Mesh
  background : Option Nat
deriving DecidableEq, Repr

/-- The `cachedMaterials` WeakMap: mesh identity to
(original material, velocity material). -/
def MatCache := List (Nat × Material × Material)

def cacheGet : List (Nat × Material × Material) → Nat → Option (Material × Material)
  | [], _ => none
  | (k', v) :: rest, k => if k' = k then some v else cacheGet rest k

structure VelState where
  cachedMaterials : List (Nat × Material × Material)
  visibleMeshes : List Nat
  nextMatId : Nat
deriving DecidableEq, Repr

/-- The camera state the passes touch: its world/view matrices (opaque
tokens) and its jitter view-offset (`camera.view`) state. -/
structure Camera where
  matrixWorld : Nat
  matrixWorldInverse : Nat
  viewExists : Bool
  viewEnabled : Bool
deriving DecidableEq, Repr

/-- Whether a jitter view offset is currently in effect on the camera. -/
def camOffsetActive (cam : Camera) : Bool := cam.viewExists && cam.viewEnabled

/-- `camera.clearViewOffset()`: disables `camera.view` when present. -/
def clearViewOffsetCam (cam : Camera) : Camera :=
  if cam.viewExists then { cam with viewEnabled := false } else cam

/-- `new VelocityMaterial()`: a fresh material identity. -/
def freshVelocityMaterial (n : Nat) : Material := ⟨n, true, true, true⟩

/-- The per-mesh mutation of `setVelocityMaterialInScene`: swap in the
velocity material and set the visibility flag from the original material's
properties (lines 60-66). -/
def applyVelMat (m : Mesh) (vm : Material) : Mesh :=
  { m with
    material := vm,
    visible := m.material.visible && m.material.depthWrite && m.material.depthTest &&
      decide (m.ctorName ≠ "GroundProjectedEnv") }

/-- `setVelocityMaterialInScene` over a mesh list (lines 40-83): for each
visible mesh, look up the cache; on a miss or a changed original material,
create a fresh velocity material and record the pair; swap in the velocity
material.  Invisible meshes are not part of `getVisibleChildren`'s result
and stay untouched.  Returns the updated meshes, the cache, the fresh-id
counter and the ids of the processed (visible) meshes. -/
def setGo : List Mesh → List (Nat × Material × Material) → Nat →
    List Mesh × List (Nat × Material × Material) × Nat × List Nat
  | [], cache, ctr => ([], cache, ctr, [])
  | m :: ms, cache, ctr =>
    if m.visible then
      match cacheGet cache m.id with
      | some (co, cvm) =>
        if m.material = co then
          let rest := setGo ms cache ctr
          (applyVelMat m cvm :: rest.1, rest.2.1, rest.2.2.1, m.id :: rest.2.2.2)
        else
          let vm := freshVelocityMaterial ctr
          let rest := setGo ms ((m.id, m.material, vm) :: cache) (ctr + 1)
          (applyVelMat m vm :: rest.1, rest.2.1, rest.2.2.1, m.id :: rest.2.2.2)
      | none =>
        let vm := freshVelocityMaterial ctr
        let rest := setGo ms ((m.id, m.material, vm) :: cache) (ctr + 1)
        (applyVelMat m vm :: rest.1, rest.2.1, rest.2.2.1, m.id :: rest.2.2.2)
    else
      let rest := setGo ms cache ctr
      (m :: rest.1, rest.2.1, rest.2.2.1, rest.2.2.2)

/-- `unsetVelocityMaterialInScene`'s per-mesh restoration (lines 85-93):
for each mesh recorded in `visibleMeshes`, set `visible` back to `true` and
restore the cached original material. -/
def unsetRestore (cache : List (Nat × Material × Material)) (vis : List Nat) (m : Mesh) : Mesh :=
  if m.id ∈ vis then
    { m with
      visible := true,
      material := match cacheGet cache m.id with
        | some p => p.1
        | none => m.material }
  else m

theorem setGo_ids (ms : List Mesh) :
    ∀ cache ctr, ((setGo ms cache ctr).1).map Mesh.id = ms.map Mesh.id := by
  induction ms with
  | nil => intro cache ctr; rfl
  | cons m ms ih =>
    intro cache ctr
    by_cases hv : m.visible
    · rcases hcg : cacheGet cache m.id with _ | ⟨co, cvm⟩
      · simp [setGo, hv, hcg, applyVelMat, ih]
      · by_cases horig : m.material = co
        · simp [setGo, hv, hcg, horig, applyVelMat, ih]
        · simp [setGo, hv, hcg, horig, applyVelMat, ih]
    · simp [setGo, hv, ih]

theorem setGo_vis_subset (ms : List Mesh) :
    ∀ cache ctr x, x ∈ (setGo ms cache ctr).2.2.2 → x ∈ ms.map Mesh.id := by
  induction ms with
  | nil => intro cache ctr x hx; simp [setGo] at hx
  | cons m ms ih =>
    intro cache ctr x hx
    by_cases hv : m.visible
    · rcases hcg : cacheGet cache m.id with _ | ⟨co, cvm⟩
      · simp [setGo, hv, hcg] at hx
        rcases hx with hx | hx
        · simp [hx]
        · simpa using Or.inr (ih _ _ _ hx)
      · by_cases horig : m.material = co
        · simp [setGo, hv, hcg, horig] at hx
          rcases hx with hx | hx
          · simp [hx]
          · simpa using Or.inr (ih _ _ _ hx)
        · simp [setGo, hv, hcg, horig] at hx
          rcases hx with hx | hx
          · simp [hx]
          · simpa using Or.inr (ih _ _ _ hx)
    · simp [setGo, hv] at hx
      simpa using Or.inr (ih _ _ _ hx)

theorem setGo_cache_preserved (ms : List Mesh) :
    ∀ cache ctr k, k ∉ ms.map Mesh.id →
      cacheGet (setGo ms cache ctr).2.1 k = cacheGet cache k := by
  induction ms with
  | nil => intro cache ctr k _; rfl
  | cons m ms ih =>
    intro cache ctr k hk
    have hkm : m.id ≠ k := by
      intro h; exact hk (by simp [h])
    have hkms : k ∉ ms.map Mesh.id := by
      intro h; exact hk (by simp [h])
    by_cases hv : m.visible
    · rcases hcg : cacheGet cache m.id with _ | ⟨co, cvm⟩
      · simp [setGo, hv, hcg, ih _ _ _ hkms, cacheGet, hkm]
      · by_cases horig : m.material = co
        · simp [setGo, hv, hcg, horig, ih _ _ _ hkms]
        · simp [setGo, hv, hcg, horig, ih _ _ _ hkms, cacheGet, hkm]
    · simp [setGo, hv, ih _ _ _ hkms]

theorem unsetRestore_skip (c : List (Nat × Material × Material)) (vis : List Nat) (x : Nat)
    (l : List Mesh) (hx : x ∉ l.map Mesh.id) :
    l.map (unsetRestore c (x :: vis)) = l.map (unsetRestore c vis) := by
  induction l with
  | nil => rfl
  | cons m ms ih =>
    have hxm : m.id ≠ x := by
      intro h; exact hx (by simp [h])
    have hxms : x ∉ ms.map Mesh.id := by
      intro h; exact hx (by simp [h])
    simp only [List.map_cons, ih hxms]
    congr 1
    simp [unsetRestore, hxm]

theorem setGo_unset_roundtrip (ms : List Mesh) :
    ∀ cache ctr, ((ms.map Mesh.id).Nodup) →
      ((setGo ms cache ctr).1).map
          (unsetRestore (setGo ms cache ctr).2.1 (setGo ms cache ctr).2.2.2) = ms := by
  induction ms with
  | nil => intro cache ctr _; rfl
  | cons m ms ih =>
    intro cache ctr hnd
    rw [List.map_cons, List.nodup_cons] at hnd
    obtain ⟨hm, hnd'⟩ := hnd
    by_cases hv : m.visible
    · rcases hcg : cacheGet cache m.id with _ | ⟨co, cvm⟩
      · -- cache miss: fresh velocity material recorded
        have hstep : setGo (m :: ms) cache ctr =
            (applyVelMat m (freshVelocityMaterial ctr) ::
                (setGo ms ((m.id, m.material, freshVelocityMaterial ctr) :: cache) (ctr + 1)).1,
              (setGo ms ((m.id, m.material, freshVelocityMaterial ctr) :: cache) (ctr + 1)).2.1,
              (setGo ms ((m.id, m.material, freshVelocityMaterial ctr) :: cache) (ctr + 1)).2.2.1,
              m.id :: (setGo ms ((m.id, m.material, freshVelocityMaterial ctr) :: cache) (ctr + 1)).2.2.2) := by
          simp [setGo, hv, hcg]
        rw [hstep]
        simp only [List.map_cons]
        rw [unsetRestore_skip _ _ _ _ (by rw [setGo_ids]; exact hm)]
        rw [ih _ _ hnd']
        congr 1
        have hc1 : cacheGet ((m.id, m.material, freshVelocityMaterial ctr) :: cache) m.id =
            some (m.material, freshVelocityMaterial ctr) := by simp [cacheGet]
        have hpres := setGo_cache_preserved ms
          ((m.id, m.material, freshVelocityMaterial ctr) :: cache) (ctr + 1) m.id hm
        simp only [unsetRestore, applyVelMat, hpres, hc1]
        obtain ⟨mid, mmat, mvis, mctor⟩ := m
        simp_all
      · by_cases horig : m.material = co
        · -- cache hit with unchanged original material
          have hstep : setGo (m :: ms) cache ctr =
              (applyVelMat m cvm :: (setGo ms cache ctr).1, (setGo ms cache ctr).2.1,
                (setGo ms cache ctr).2.2.1, m.id :: (setGo ms cache ctr).2.2.2) := by
            simp [setGo, hv, hcg, horig]
          rw [hstep]
          simp only [List.map_cons]
          rw [unsetRestore_skip _ _ _ _ (by rw [setGo_ids]; exact hm)]
          rw [ih _ _ hnd']
          congr 1
          have hpres := setGo_cache_preserved ms cache ctr m.id hm
          simp only [unsetRestore, applyVelMat, hpres, hcg]
          obtain ⟨mid, mmat, mvis, mctor⟩ := m
          simp_all
        · -- cache hit with changed original material: refresh the entry
          have hstep : setGo (m :: ms) cache ctr =
              (applyVelMat m (freshVelocityMaterial ctr) ::
                  (setGo ms ((m.id, m.material, freshVelocityMaterial ctr) :: cache) (ctr + 1)).1,
                (setGo ms ((m.id, m.material, freshVelocityMaterial ctr) :: cache) (ctr + 1)).2.1,
                (setGo ms ((m.id, m.material, freshVelocityMaterial ctr) :: cache) (ctr + 1)).2.2.1,
                m.id :: (setGo ms ((m.id, m.material, freshVelocityMaterial ctr) :: cache) (ctr + 1)).2.2.2) := by
            simp [setGo, hv, hcg, horig]
          rw [hstep]
          simp only [List.map_cons]
          rw [unsetRestore_skip _ _ _ _ (by rw [setGo_ids]; exact hm)]
          rw [ih _ _ hnd']
          congr 1
          have hc1 : cacheGet ((m.id, m.material, freshVelocityMaterial ctr) :: cache) m.id =
              some (m.material, freshVelocityMaterial ctr) := by simp [cacheGet]
          have hpres := setGo_cache_preserved ms
            ((m.id, m.material, freshVelocityMaterial ctr) :: cache) (ctr + 1) m.id hm
          simp only [unsetRestore, applyVelMat, hpres, hc1]
          obtain ⟨mid, mmat, mvis, mctor⟩ := m
          simp_all
    · have hstep : setGo (m :: ms) cache ctr =
          (m :: (setGo ms cache ctr).1, (setGo ms cache ctr).2.1, (setGo ms cache ctr).2.2.1,
            (setGo ms cache ctr).2.2.2) := by
        simp [setGo, hv]
      rw [hstep]
      simp only [List.map_cons]
      rw [ih _ _ hnd']
      congr 1
      have hnot : m.id ∉ (setGo ms cache ctr).2.2.2 :=
        fun h => hm (setGo_vis_subset ms cache ctr m.id h)
      simp [unsetRestore, hnot]

/-! ### Render events and buffer slots

Buffer slots of the pipeline: the temporal-resolve pass's own render target,
the three attachments of the copy pass's multiple-render-target (the history
snapshot), and the three attachments of the velocity pass's
multiple-render-target. -/

inductive Slot where
  | trTarget
  | copySlot0
  | copySlot1
  | copySlot2
  | velColor
  | velDepth
  | velNormal
deriving DecidableEq, Repr

/-- Kinds of operations issued while rendering, in program order. -/
inductive EvKind where
  | clearOffset
  | enableOffset
  | setOffset
  | geomDraw
  | resolveDraw
  | copyDraw
  | saveMat
deriving DecidableEq, Repr

/-- One issued operation: its kind, the buffer slots the bound shader
samples, the slots of the render target written, and whether a jitter view
offset was in effect on the camera when the operation was issued. -/
structure EvRec where
  kind : EvKind
  reads : List Slot
  writes : List Slot
  jitterOn : Bool
deriving DecidableEq, Repr

structure VelRenderResult where
  scene : Scene
  camera : Camera
  velState : VelState
  trace : List EvRec
deriving DecidableEq, Repr

/-- `VelocityPass.render` (lines 119-137): clear the camera's view offset,
swap in the velocity materials, render depth/normal/velocity against a black
background, restore the background, restore materials and visibility, and
re-enable the camera's view offset. -/
def velRender (scene : Scene) (cam : Camera) (vs : VelState) : VelRenderResult :=
  let cam1 := clearViewOffsetCam cam
  let r := setGo scene.meshes vs.cachedMaterials vs.nextMatId
  let scene1 : Scene := { meshes := r.1, background := scene.background }
  let vs1 : VelState := ⟨r.2.1, r.2.2.2, r.2.2.1⟩
  let bg := scene1.background
  let scene2 : Scene := { scene1 with background := some 0 }
  -- renderer.setRenderTarget(this.renderTarget); renderer.render(scene, camera)
  let scene3 : Scene := { scene2 with background := bg }
  let scene4 : Scene :=
    { scene3 with meshes := scene3.meshes.map (unsetRestore vs1.cachedMaterials vs1.visibleMeshes) }
  let cam2 := if cam1.viewExists then { cam1 with viewEnabled := true } else cam1
  { scene := scene4
    camera := cam2
    velState := vs1
    trace := [⟨.clearOffset, [], [], camOffsetActive cam1⟩,
              ⟨.geomDraw, [], [.velColor, .velDepth, .velNormal], camOffsetActive cam1⟩] ++
             (if cam1.viewExists then [(⟨.enableOffset, [], [], true⟩ : EvRec)] else []) }

/-- Claim C8: `VelocityPass.render` leaves the externally visible scene state
as it found it: the mesh list (materials and visibility flags included) and
the scene background are restored, and in particular every mesh that was
visible on entry ends with its original material and `visible = true`. -/
theorem c8_velocity_scene_restored (scene : Scene) (cam : Camera) (vs : VelState)
    (h : (scene.meshes.map Mesh.id).Nodup) :
    (velRender scene cam vs).scene.meshes = scene.meshes ∧
    (velRender scene cam vs).scene.background = scene.background ∧
    ∀ m ∈ scene.meshes, m.visible = true →
      ∃ m' ∈ (velRender scene cam vs).scene.meshes,
        m'.id = m.id ∧ m'.material = m.material ∧ m'.visible = true := by
  have hmeshes : (velRender scene cam vs).scene.meshes = scene.meshes := by
    show ((setGo scene.meshes vs.cachedMaterials vs.nextMatId).1).map
        (unsetRestore (setGo scene.meshes vs.cachedMaterials vs.nextMatId).2.1
          (setGo scene.meshes vs.cachedMaterials vs.nextMatId).2.2.2) = scene.meshes
    exact setGo_unset_roundtrip scene.meshes vs.cachedMaterials vs.nextMatId h
  refine ⟨hmeshes, rfl, ?_⟩
  intro m hm hv
  exact ⟨m, by rw [hmeshes]; exact hm, rfl, rfl, hv⟩

/-- Witness for C8: a two-mesh scene, one visible and one hidden. -/
theorem c8_velocity_scene_restored_witness :
    ((([⟨0, ⟨10, true, true, true⟩, true, "Mesh"⟩,
        ⟨1, ⟨11, true, false, true⟩, false, "Mesh"⟩] : List Mesh).map Mesh.id).Nodup) ∧
    ((velRender ⟨[⟨0, ⟨10, true, true, true⟩, true, "Mesh"⟩,
        ⟨1, ⟨11, true, false, true⟩, false, "Mesh"⟩], some 7⟩ ⟨0, 0, true, true⟩ ⟨[], [], 0⟩).scene.meshes =
      [⟨0, ⟨10, true, true, true⟩, true, "Mesh"⟩, ⟨1, ⟨11, true, false, true⟩, false, "Mesh"⟩] ∧
    (velRender ⟨[⟨0, ⟨10, true, true, true⟩, true, "Mesh"⟩,
        ⟨1, ⟨11, true, false, true⟩, false, "Mesh"⟩], some 7⟩ ⟨0, 0, true, true⟩ ⟨[], [], 0⟩).scene.background =
      (⟨[⟨0, ⟨10, true, true, true⟩, true, "Mesh"⟩,
        ⟨1, ⟨11, true, false, true⟩, false, "Mesh"⟩], some 7⟩ : Scene).background ∧
    ∀ m ∈ (⟨[⟨0, ⟨10, true, true, true⟩, true, "Mesh"⟩,
        ⟨1, ⟨11, true, false, true⟩, false, "Mesh"⟩], some 7⟩ : Scene).meshes, m.visible = true →
      ∃ m' ∈ (velRender ⟨[⟨0, ⟨10, true, true, true⟩, true, "Mesh"⟩,
          ⟨1, ⟨11, true, false, true⟩, false, "Mesh"⟩], some 7⟩ ⟨0, 0, true, true⟩ ⟨[], [], 0⟩).scene.meshes,
        m'.id = m.id ∧ m'.material = m.material ∧ m'.visible = true) :=
  ⟨by decide,
    c8_velocity_scene_restored
      ⟨[⟨0, ⟨10, true, true, true⟩, true, "Mesh"⟩,
        ⟨1, ⟨11, true, false, true⟩, false, "Mesh"⟩], some 7⟩
      ⟨0, 0, true, true⟩ ⟨[], [], 0⟩ (by decide)⟩

/-! ### TemporalResolvePass (src/SSGI/pass/DenoisePass.js, class TemporalResolvePass)

The `CopyPass` class is imported from `../pass/CopyPass` and its source is
not part of this repository snapshot; it is modelled from the spec (section
4.4): a pass with one multiple-render-target of `N = 3` attachments
(`copyPass.renderTarget.texture[0..2]` — the slots `copySlot0..2`) whose
fullscreen material copies its `inputTexture`, `inputTexture2` and
`inputTexture3` uniforms into those attachments when rendered. -/

structure TRUniforms where
  accumulatedTexture : Slot
  lastDepthTexture : Slot
  lastNormalTexture : Slot
  velocityTexture : Slot
  depthTexture : Slot
  normalTexture : Slot
  prevCameraMatrixWorld : Nat
  prevViewMatrix : Nat
deriving DecidableEq, Repr

/-- The copy pass's fullscreen-material uniforms (`null` until first set). -/
structure CopyUniforms where
  inputTexture : Option Slot
  inputTexture2 : Option Slot
  inputTexture3 : Option Slot
deriving DecidableEq, Repr

structure TRState where
  uniforms : TRUniforms
  copyUniforms : CopyUniforms
  accumulatedTexture : Slot
  renderVelocity : Bool
deriving DecidableEq, Repr

/-- The `TemporalResolvePass` constructor (lines 115-185) with the default
options: wire the resolve material's history uniforms to the copy pass's
attachments, the velocity/depth/normal uniforms to the velocity pass's
attachments, and initialize the previous-camera matrices with clones of the
camera's current matrices. -/
def trInit (cam : Camera) (renderVelocity : Bool) : TRState :=
  { uniforms :=
      { accumulatedTexture := .copySlot0
        lastDepthTexture := .copySlot1
        lastNormalTexture := .copySlot2
        velocityTexture := .velColor
        depthTexture := .velDepth
        normalTexture := .velNormal
        prevCameraMatrixWorld := cam.matrixWorld
        prevViewMatrix := cam.matrixWorldInverse }
    copyUniforms := ⟨none, none, none⟩
    accumulatedTexture := .copySlot0
    renderVelocity := renderVelocity }

structure TRRenderResult where
  state : TRState
  scene : Scene
  camera : Camera
  velState : VelState
  trace : List EvRec
deriving DecidableEq, Repr

/-- `TemporalResolvePass.render` (lines 212-229): optionally run the velocity
pass, draw the resolve fullscreen material into the pass's render target,
point the copy pass's inputs at this frame's resolved color and current
depth/normal, run the copy pass into the history attachments, and finally
copy the camera's current matrices into the previous-matrix uniforms. -/
def trRender (scene : Scene) (cam : Camera) (vs : VelState) (st : TRState) : TRRenderResult :=
  let v := if st.renderVelocity then velRender scene cam vs
           else { scene := scene, camera := cam, velState := vs, trace := [] }
  let resolveEv : EvRec :=
    ⟨.resolveDraw,
      [st.uniforms.accumulatedTexture, st.uniforms.lastDepthTexture,
        st.uniforms.lastNormalTexture, st.uniforms.velocityTexture,
        st.uniforms.depthTexture, st.uniforms.normalTexture],
      [.trTarget], camOffsetActive v.camera⟩
  let st1 : TRState :=
    { st with
      copyUniforms :=
        ⟨some .trTarget, some st.uniforms.depthTexture, some st.uniforms.normalTexture⟩
      accumulatedTexture := .trTarget }
  let copyEv : EvRec :=
    ⟨.copyDraw,
      [.trTarget, st.uniforms.depthTexture, st.uniforms.normalTexture],
      [.copySlot0, .copySlot1, .copySlot2], camOffsetActive v.camera⟩
  let st2 : TRState :=
    { st1 with
      uniforms :=
        { st1.uniforms with
          prevCameraMatrixWorld := v.camera.matrixWorld
          prevViewMatrix := v.camera.matrixWorldInverse } }
  { state := st2
    scene := v.scene
    camera := v.camera
    velState := v.velState
    trace := v.trace ++ [resolveEv, copyEv, ⟨.saveMat, [], [], camOffsetActive v.camera⟩] }

/-- The resolve material's uniform wiring as established by the constructor:
history uniforms read the copy pass's attachments, geometry uniforms read the
velocity pass's attachments. -/
def Wired (st : TRState) : Prop :=
  st.uniforms.accumulatedTexture = Slot.copySlot0 ∧
  st.uniforms.lastDepthTexture = Slot.copySlot1 ∧
  st.uniforms.lastNormalTexture = Slot.copySlot2 ∧
  st.uniforms.velocityTexture = Slot.velColor ∧
  st.uniforms.depthTexture = Slot.velDepth ∧
  st.uniforms.normalTexture = Slot.velNormal

instance : DecidablePred Wired := fun st => by
  unfold Wired
  infer_instance

theorem camOffset_after_clear (cam : Camera) :
    camOffsetActive (clearViewOffsetCam cam) = false := by
  by_cases h : cam.viewExists <;> simp [camOffsetActive, clearViewOffsetCam, h]

theorem velRender_camera_matrices (scene : Scene) (cam : Camera) (vs : VelState) :
    (velRender scene cam vs).camera.matrixWorld = cam.matrixWorld ∧
    (velRender scene cam vs).camera.matrixWorldInverse = cam.matrixWorldInverse := by
  by_cases h : cam.viewExists <;> simp [velRender, clearViewOffsetCam, h]

/-- Scanning check: every operation issued while a history attachment has
already been overwritten must not sample a history attachment.  In other
words all reads of the history slots precede all writes to them. -/
def histSlot : Slot → Bool
  | .copySlot0 => true
  | .copySlot1 => true
  | .copySlot2 => true
  | _ => false

def histReadsBeforeWrites : List EvRec → Bool → Bool
  | [], _ => true
  | e :: r, written =>
    (!(e.reads.any histSlot) || !written) &&
      histReadsBeforeWrites r (written || e.writes.any histSlot)

/-- Scanning check: a geometry-extraction draw may only be issued while the
camera's jitter view offset is cleared, i.e. after a `clearOffset` with no
`enableOffset`/`setOffset` in between. -/
def jitterClearOK : List EvRec → Bool → Bool
  | [], _ => true
  | e :: r, cleared =>
    match e.kind with
    | .clearOffset => jitterClearOK r true
    | .enableOffset => jitterClearOK r false
    | .setOffset => jitterClearOK r false
    | .geomDraw => cleared && jitterClearOK r cleared
    | _ => jitterClearOK r cleared

/-- Scanning check: a `saveMat` operation may only be issued once both the
resolve draw and the history-copy draw have been issued. -/
def saveAfterDraws : List EvRec → Bool → Bool → Bool
  | [], _, _ => true
  | e :: r, sr, sc =>
    match e.kind with
    | .resolveDraw => saveAfterDraws r true sc
    | .copyDraw => saveAfterDraws r sr true
    | .saveMat => sr && sc && saveAfterDraws r sr sc
    | _ => saveAfterDraws r sr sc

/-- Claim C5: in every step of `TemporalResolvePass.render` the slots read
are disjoint from the slots written: the resolve draw reads the history
attachments (and the velocity pass's attachments) and writes only the pass's
own render target; the history copy reads the render target plus current
depth/normal and writes only the copy-pass attachments. -/
theorem c5_step_reads_disjoint_writes (scene : Scene) (cam : Camera) (vs : VelState)
    (st : TRState) (hw : Wired st) :
    ∀ e ∈ (trRender scene cam vs st).trace, ∀ s ∈ e.reads, s ∉ e.writes := by
  obtain ⟨h1, h2, h3, h4, h5, h6⟩ := hw
  intro e he s hs
  rcases hrv : st.renderVelocity
  · simp [trRender, hrv] at he
    rcases he with rfl | rfl | rfl <;>
      (try simp only [h1, h2, h3, h4, h5, h6] at hs ⊢) <;>
      cases s <;> revert hs <;> decide
  · by_cases hve : cam.viewExists
    · simp [trRender, hrv, velRender, clearViewOffsetCam, hve] at he
      rcases he with rfl | rfl | rfl | rfl | rfl | rfl <;>
        (try simp only [h1, h2, h3, h4, h5, h6] at hs ⊢) <;>
        cases s <;> revert hs <;> decide
    · simp [trRender, hrv, velRender, clearViewOffsetCam, hve] at he
      rcases he with rfl | rfl | rfl | rfl | rfl <;>
        (try simp only [h1, h2, h3, h4, h5, h6] at hs ⊢) <;>
        cases s <;> revert hs <;> decide

/-- Witness for C5: the constructor-produced state. -/
theorem c5_step_reads_disjoint_writes_witness :
    Wired (trInit ⟨3, 4, true, true⟩ true) ∧
    ∀ e ∈ (trRender ⟨[], some 0⟩ ⟨3, 4, true, true⟩ ⟨[], [], 0⟩ (trInit ⟨3, 4, true, true⟩ true)).trace,
      ∀ s ∈ e.reads, s ∉ e.writes :=
  ⟨by decide,
    c5_step_reads_disjoint_writes ⟨[], some 0⟩ ⟨3, 4, true, true⟩ ⟨[], [], 0⟩
      (trInit ⟨3, 4, true, true⟩ true) (by decide)⟩

/-- Claim C6: whenever `VelocityPass.render` executes — standalone or from
`TemporalResolvePass.render` — the camera's jitter view offset is cleared
before the geometry (depth/normal/velocity) draw is issued, no re-apply of
an offset precedes that draw, and the geometry draw itself runs with no
offset in effect; the offset is re-enabled only after the geometry draw. -/
theorem c6_offset_cleared_before_geometry (scene : Scene) (cam : Camera) (vs : VelState)
    (st : TRState) :
    jitterClearOK ((velRender scene cam vs).trace) false = true ∧
    (∀ e ∈ (velRender scene cam vs).trace, e.kind = .geomDraw → e.jitterOn = false) ∧
    jitterClearOK ((trRender scene cam vs st).trace) false = true ∧
    (∀ e ∈ (trRender scene cam vs st).trace, e.kind = .geomDraw → e.jitterOn = false) := by
  have hclear := camOffset_after_clear cam
  refine ⟨?_, ?_, ?_, ?_⟩
  · by_cases hve : cam.viewExists <;>
      simp [velRender, clearViewOffsetCam, hve, jitterClearOK]
  · intro e he hk
    by_cases hve : cam.viewExists <;>
      simp [velRender, clearViewOffsetCam, hve] at he <;>
      [rcases he with rfl | rfl | rfl; rcases he with rfl | rfl] <;>
      simp_all [camOffsetActive, clearViewOffsetCam]
  · rcases hrv : st.renderVelocity
    · simp [trRender, hrv, jitterClearOK]
    · by_cases hve : cam.viewExists <;>
        simp [trRender, hrv, velRender, clearViewOffsetCam, hve, jitterClearOK]
  · intro e he hk
    rcases hrv : st.renderVelocity
    · simp [trRender, hrv] at he
      rcases he with rfl | rfl | rfl <;> simp_all
    · by_cases hve : cam.viewExists
      · simp [trRender, hrv, velRender, clearViewOffsetCam, hve] at he
        rcases he with rfl | rfl | rfl | rfl | rfl | rfl <;>
          simp_all [camOffsetActive, clearViewOffsetCam]
      · simp [trRender, hrv, velRender, clearViewOffsetCam, hve] at he
        rcases he with rfl | rfl | rfl | rfl | rfl <;>
          simp_all [camOffsetActive, clearViewOffsetCam]

/-- Claim C7: after `TemporalResolvePass.render`, the previous-camera-matrix
uniforms hold the camera's current `matrixWorld` / `matrixWorldInverse`, and
the save happens only after both the resolve draw and the history copy were
issued (and all three operations do occur). -/
theorem c7_prev_matrices_saved_last (scene : Scene) (cam : Camera) (vs : VelState)
    (st : TRState) :
    (trRender scene cam vs st).state.uniforms.prevCameraMatrixWorld = cam.matrixWorld ∧
    (trRender scene cam vs st).state.uniforms.prevViewMatrix = cam.matrixWorldInverse ∧
    saveAfterDraws ((trRender scene cam vs st).trace) false false = true ∧
    (∃ e ∈ (trRender scene cam vs st).trace, e.kind = .saveMat) ∧
    (∃ e ∈ (trRender scene cam vs st).trace, e.kind = .resolveDraw) ∧
    (∃ e ∈ (trRender scene cam vs st).trace, e.kind = .copyDraw) := by
  rcases hrv : st.renderVelocity
  · simp [trRender, hrv, saveAfterDraws]
  · by_cases hve : cam.viewExists <;>
      simp [trRender, hrv, velRender, clearViewOffsetCam, hve, saveAfterDraws]

/-- A concrete first-frame configuration: empty scene, camera with an active
view offset, constructor-fresh pass state. -/
def demoScene : Scene := ⟨[], some 0⟩

def demoCam : Camera := ⟨3, 4, true, true⟩

def demoVelState : VelState := ⟨[], [], 0⟩

/-- Counterexample to claim C4 as stated: the claim asserts the history is
replaced by a copy into a distinct target buffer *followed by a
pointer/handle swap, never in-place mutation*.  On the code, rendering a
frame from the constructor-fresh state both leaves the resolve material's
history handle (`accumulatedTexture` uniform, `copySlot0`) exactly where it
was — no swap happens — and issues a draw that overwrites the history
attachments themselves, i.e. the history buffer is mutated in place. -/
theorem c4_no_swap_counterexample :
    ¬ (((trRender demoScene demoCam demoVelState
          (trInit demoCam true)).state.uniforms.accumulatedTexture
            ≠ (trInit demoCam true).uniforms.accumulatedTexture) ∧
       ((trRender demoScene demoCam demoVelState (trInit demoCam true)).trace.all
          (fun e => !(e.writes.any histSlot)) = true)) := by decide

/-- Claim C4 (amended): the history state lives in fixed buffers (the
copy-pass attachments); no handle swap happens — the resolve material's
history uniforms are unchanged by `render` — and the history buffers are
overwritten in place by the copy draw, but only after every read of them
(the resolve draw) has been issued, and the overwriting copy samples no
history slot, so the old history remains valid for all reads of the
frame. -/
theorem c4_history_inplace_after_reads (scene : Scene) (cam : Camera) (vs : VelState)
    (st : TRState) (hw : Wired st) :
    (trRender scene cam vs st).state.uniforms.accumulatedTexture =
      st.uniforms.accumulatedTexture ∧
    (trRender scene cam vs st).state.uniforms.lastDepthTexture =
      st.uniforms.lastDepthTexture ∧
    (trRender scene cam vs st).state.uniforms.lastNormalTexture =
      st.uniforms.lastNormalTexture ∧
    histReadsBeforeWrites ((trRender scene cam vs st).trace) false = true ∧
    (∀ e ∈ (trRender scene cam vs st).trace,
      e.writes.any histSlot = true → e.reads.any histSlot = false) := by
  obtain ⟨h1, h2, h3, h4, h5, h6⟩ := hw
  refine ⟨?_, ?_, ?_, ?_, ?_⟩
  · rcases hrv : st.renderVelocity <;> simp [trRender, hrv]
  · rcases hrv : st.renderVelocity <;> simp [trRender, hrv]
  · rcases hrv : st.renderVelocity <;> simp [trRender, hrv]
  · rcases hrv : st.renderVelocity
    · simp [trRender, hrv, histReadsBeforeWrites, h1, h2, h3, h4, h5, h6, histSlot]
    · by_cases hve : cam.viewExists <;>
        simp [trRender, hrv, velRender, clearViewOffsetCam, hve, histReadsBeforeWrites,
          h1, h2, h3, h4, h5, h6, histSlot]
  · intro e he hwr
    rcases hrv : st.renderVelocity
    · simp [trRender, hrv] at he
      rcases he with rfl | rfl | rfl <;>
        simp_all [h5, h6, histSlot]
    · by_cases hve : cam.viewExists
      · simp [trRender, hrv, velRender, clearViewOffsetCam, hve] at he
        rcases he with rfl | rfl | rfl | rfl | rfl | rfl <;>
          simp_all [h5, h6, histSlot]
      · simp [trRender, hrv, velRender, clearViewOffsetCam, hve] at he
        rcases he with rfl | rfl | rfl | rfl | rfl <;>
          simp_all [h5, h6, histSlot]

/-- Witness for the amended C4 at the constructor-fresh state. -/
theorem c4_history_inplace_after_reads_witness :
    Wired (trInit demoCam true) ∧
    ((trRender demoScene demoCam demoVelState (trInit demoCam true)).state.uniforms.accumulatedTexture =
      (trInit demoCam true).uniforms.accumulatedTexture ∧
    (trRender demoScene demoCam demoVelState (trInit demoCam true)).state.uniforms.lastDepthTexture =
      (trInit demoCam true).uniforms.lastDepthTexture ∧
    (trRender demoScene demoCam demoVelState (trInit demoCam true)).state.uniforms.lastNormalTexture =
      (trInit demoCam true).uniforms.lastNormalTexture ∧
    histReadsBeforeWrites ((trRender demoScene demoCam demoVelState (trInit demoCam true)).trace) false = true ∧
    (∀ e ∈ (trRender demoScene demoCam demoVelState (trInit demoCam true)).trace,
      e.writes.any histSlot = true → e.reads.any histSlot = false)) :=
  ⟨by decide,
    c4_history_inplace_after_reads demoScene demoCam demoVelState (trInit demoCam true) (by decide)⟩

/-! ### Jitter sequencer (TemporalResolvePass.jitter, lines 231-248)

The `generateR2` import (`temporal-resolve/utils/QuasirandomGenerator`) is
not part of this repository snapshot.  It is modelled from the spec
(section 4.1): the i-th point of the 2D R2 low-discrepancy sequence is
`(frac(i * a1), frac(i * a2))` for the fixed irrational constants
`a1 = 1/g`, `a2 = 1/g^2`, where `g` is the generalized golden ratio for
dimension 2 (the plastic ratio, the real root of `x^3 = x + 1`). -/

theorem plastic_exists : ∃ x : ℝ, x ∈ Set.Icc (1 : ℝ) 2 ∧ x ^ 3 = x + 1 := by
  have hcont : ContinuousOn (fun x : ℝ => x ^ 3 - x - 1) (Set.Icc 1 2) :=
    (((continuous_pow 3).sub continuous_id).sub continuous_const).continuousOn
  have hsub := intermediate_value_Icc (by norm_num : (1 : ℝ) ≤ 2) hcont
  have h0 : (0 : ℝ) ∈ Set.Icc ((1 : ℝ) ^ 3 - 1 - 1) ((2 : ℝ) ^ 3 - 2 - 1) := by norm_num
  obtain ⟨x, hx, hfx⟩ := hsub h0
  refine ⟨x, hx, ?_⟩
  have : x ^ 3 - x - 1 = 0 := hfx
  linarith

noncomputable def plastic : ℝ := Classical.choose plastic_exists

theorem plastic_mem : plastic ∈ Set.Icc (1 : ℝ) 2 := (Classical.choose_spec plastic_exists).1

theorem plastic_cubed : plastic ^ 3 = plastic + 1 := (Classical.choose_spec plastic_exists).2

theorem plastic_irrational : Irrational plastic := by
  rintro ⟨q, hq⟩
  have hq3 : (q : ℝ) ^ 3 = (q : ℝ) + 1 := by rw [hq]; exact plastic_cubed
  have hq3Q : q ^ 3 = q + 1 := by exact_mod_cast hq3
  have hden0 : ((q.den : ℚ)) ≠ 0 := by
    exact_mod_cast q.den_nz
  have hnum : (q.num : ℚ) = q * (q.den : ℚ) := by
    have h := Rat.num_div_den q
    rwa [div_eq_iff hden0] at h
  have hkeyQ : (q.num : ℚ) ^ 3 = (q.num : ℚ) * (q.den : ℚ) ^ 2 + (q.den : ℚ) ^ 3 := by
    calc (q.num : ℚ) ^ 3 = (q * (q.den : ℚ)) ^ 3 := by rw [hnum]
      _ = q ^ 3 * (q.den : ℚ) ^ 3 := by ring
      _ = (q + 1) * (q.den : ℚ) ^ 3 := by rw [hq3Q]
      _ = (q * (q.den : ℚ)) * (q.den : ℚ) ^ 2 + (q.den : ℚ) ^ 3 := by ring
      _ = (q.num : ℚ) * (q.den : ℚ) ^ 2 + (q.den : ℚ) ^ 3 := by rw [← hnum]
  have hkey : q.num ^ 3 = q.num * (q.den : ℤ) ^ 2 + (q.den : ℤ) ^ 3 := by exact_mod_cast hkeyQ
  have hdvd : (q.den : ℤ) ∣ q.num ^ 3 :=
    ⟨q.num * (q.den : ℤ) + (q.den : ℤ) ^ 2, by rw [hkey]; ring⟩
  have hcop : IsCoprime (q.num) ((q.den : ℤ)) := by
    rw [← Int.gcd_eq_one_iff_coprime]
    simpa [Int.gcd] using q.reduced
  have hcop3 : IsCoprime ((q.den : ℤ)) (q.num ^ 3) := hcop.symm.pow_right
  have hunit : IsUnit ((q.den : ℤ)) := hcop3.isUnit_of_dvd hdvd
  have hdpos : (0 : ℤ) < (q.den : ℤ) := by exact_mod_cast Nat.pos_of_ne_zero q.den_nz
  have hden1 : (q.den : ℤ) = 1 := by
    rcases Int.isUnit_eq_one_or hunit with h | h
    · exact h
    · omega
  have hqint : (q : ℚ) = (q.num : ℚ) := by
    rw [← Rat.num_div_den q, show ((q.den : ℚ)) = 1 by exact_mod_cast hden1]
    simp
  obtain ⟨hlo, hhi⟩ := plastic_mem
  rw [← hq] at hlo hhi
  have h1n : (1 : ℤ) ≤ q.num := by
    have : (1 : ℚ) ≤ (q.num : ℚ) := by
      rw [← hqint]; exact_mod_cast hlo
    exact_mod_cast this
  have h2n : q.num ≤ 2 := by
    have : ((q.num : ℚ)) ≤ 2 := by
      rw [← hqint]; exact_mod_cast hhi
    exact_mod_cast this
  have hcube : q.num ^ 3 = q.num + 1 := by
    rw [hkey, hden1]; ring
  interval_cases h : q.num <;> omega

noncomputable def a1 : ℝ := plastic⁻¹

noncomputable def a2 : ℝ := plastic⁻¹ ^ 2

theorem a1_irrational : Irrational a1 := plastic_irrational.inv

theorem fract_mul_inj {a : ℝ} (ha : Irrational a) {i j : ℕ}
    (h : Int.fract ((i : ℝ) * a) = Int.fract ((j : ℝ) * a)) : i = j := by
  by_contra hne
  rw [Int.fract_eq_fract] at h
  obtain ⟨z, hz⟩ := h
  have hij : ((i : ℝ) - (j : ℝ)) ≠ 0 := by
    have : (i : ℝ) ≠ (j : ℝ) := by exact_mod_cast hne
    exact sub_ne_zero.mpr this
  have ha' : a = (z : ℝ) / ((i : ℝ) - (j : ℝ)) := by
    rw [eq_div_iff hij]
    linear_combination hz
  apply ha
  refine ⟨(z : ℚ) / ((i : ℚ) - (j : ℚ)), ?_⟩
  rw [ha']
  push_cast
  ring

/-- Modelled from the spec: `generateR2(n)` from
`temporal-resolve/utils/QuasirandomGenerator` (source not in this snapshot)
returns the first `n` points `(frac(i * a1), frac(i * a2))` of the 2D R2
quasirandom sequence. -/
noncomputable def generateR2 (n : Nat) : List (ℝ × ℝ) :=
  (List.range n).map (fun i : Nat => (Int.fract ((i : ℝ) * a1), Int.fract ((i : ℝ) * a2)))

/-- The jitter-sequencer state of `TemporalResolvePass`: the lazily built
`r2Sequence`, the cyclic `pointsIndex`, and the view offset currently applied
to the camera by `setViewOffset` (`none` when cleared). -/
structure JitterState where
  r2Sequence : List (ℝ × ℝ)
  pointsIndex : Nat
  cameraOffset : Option (ℝ × ℝ)

/-- Class-field initializers: `r2Sequence = []`, `pointsIndex = 0`, no
offset applied. -/
def initJitterState : JitterState := ⟨[], 0, none⟩

/-- `unjitter()` (lines 246-248): `camera.clearViewOffset()`. -/
def unjitterJ (st : JitterState) : JitterState := { st with cameraOffset := none }

/-- `jitter(jitterScale)` (lines 231-244): clear the current offset, build
the shifted R2 sequence on first use, advance the index modulo the sequence
length, and apply the selected offset scaled by `jitterScale` through
`setViewOffset`. -/
noncomputable def jitterJ (jitterScale : ℝ) (st : JitterState) : JitterState :=
  let st1 := unjitterJ st
  let seq := if st1.r2Sequence.length = 0
    then (generateR2 256).map (fun p => (p.1 - 0.5, p.2 - 0.5))
    else st1.r2Sequence
  let idx := (st1.pointsIndex + 1) % seq.length
  let p := seq.getD idx (0, 0)
  { r2Sequence := seq, pointsIndex := idx,
    cameraOffset := some (p.1 * jitterScale, p.2 * jitterScale) }

/-- State after `n` successive `jitter(jitterScale)` calls from a fresh
pass. -/
noncomputable def jitterIter (jitterScale : ℝ) : Nat → JitterState
  | 0 => initJitterState
  | n + 1 => jitterJ jitterScale (jitterIter jitterScale n)

/-- The offsets applied by calls `1 .. n`. -/
noncomputable def jitterOffsets (jitterScale : ℝ) (n : Nat) : List (Option (ℝ × ℝ)) :=
  (List.range n).map (fun k => (jitterIter jitterScale (k + 1)).cameraOffset)

/-- The i-th entry of the shifted R2 sequence. -/
noncomputable def r2Point (i : Nat) : ℝ × ℝ :=
  (Int.fract ((i : ℝ) * a1) - 0.5, Int.fract ((i : ℝ) * a2) - 0.5)

noncomputable def fullSeq : List (ℝ × ℝ) :=
  (generateR2 256).map (fun p => (p.1 - 0.5, p.2 - 0.5))

theorem fullSeq_eq : fullSeq = (List.range 256).map r2Point := by
  unfold fullSeq generateR2
  rw [List.map_map]
  apply List.map_congr_left
  intro i _
  rfl

theorem fullSeq_length : fullSeq.length = 256 := by
  rw [fullSeq_eq]; simp

theorem fullSeq_getElem (i : Nat) (h : i < 256) : fullSeq[i]? = some (r2Point i) := by
  rw [fullSeq_eq, List.getElem?_eq_getElem (by simpa using h)]
  simp

theorem fullSeq_fold :
    (generateR2 256).map (fun p => (p.1 - 0.5, p.2 - 0.5)) = fullSeq := rfl

theorem jitterJ_first (s : ℝ) :
    jitterJ s initJitterState =
      ⟨fullSeq, 1, some ((r2Point 1).1 * s, (r2Point 1).2 * s)⟩ := by
  have hget := fullSeq_getElem 1 (by omega)
  simp [jitterJ, unjitterJ, initJitterState, fullSeq_fold, fullSeq_length, hget]

theorem jitterJ_step (s : ℝ) (idx0 : Nat) (off : Option (ℝ × ℝ)) :
    jitterJ s ⟨fullSeq, idx0, off⟩ =
      ⟨fullSeq, (idx0 + 1) % 256,
        some ((r2Point ((idx0 + 1) % 256)).1 * s, (r2Point ((idx0 + 1) % 256)).2 * s)⟩ := by
  have hget := fullSeq_getElem ((idx0 + 1) % 256) (Nat.mod_lt _ (by omega))
  simp [jitterJ, unjitterJ, fullSeq_fold, fullSeq_length, hget]

theorem jitterIter_closed (s : ℝ) :
    ∀ n, 1 ≤ n → jitterIter s n =
      ⟨fullSeq, n % 256,
        some ((r2Point (n % 256)).1 * s, (r2Point (n % 256)).2 * s)⟩ := by
  intro n hn
  induction n with
  | zero => omega
  | succ n ih =>
    rcases Nat.eq_zero_or_pos n with rfl | hpos
    · have h1 : (0 + 1) % 256 = 1 := by norm_num
      rw [show jitterIter s (0 + 1) = jitterJ s initJitterState from rfl, jitterJ_first, h1]
    · rw [show jitterIter s (n + 1) = jitterJ s (jitterIter s n) from rfl, ih hpos, jitterJ_step]
      have hAB : (n % 256 + 1) % 256 = (n + 1) % 256 := by omega
      rw [hAB]

theorem jitterIter_closed_offsets (s : ℝ) (n : Nat) :
    jitterOffsets s n = (List.range n).map
      (fun k => some ((r2Point ((k + 1) % 256)).1 * s, (r2Point ((k + 1) % 256)).2 * s)) := by
  unfold jitterOffsets
  apply List.map_congr_left
  intro k _
  rw [jitterIter_closed s (k + 1) (by omega)]

theorem r2Point_scaled_inj {s : ℝ} (hs : s ≠ 0) {i j : Nat}
    (h : (r2Point i).1 * s = (r2Point j).1 * s) : i = j := by
  have h1 : (r2Point i).1 = (r2Point j).1 := mul_right_cancel₀ hs h
  simp only [r2Point] at h1
  exact fract_mul_inj a1_irrational (by linarith)

/-- Claim C3: the 256-entry jitter sequence is generated lazily on the first
call to `jitter` and never regenerated; the index advances modulo 256 on
every call; with a positive scale, 256 consecutive calls apply 256 pairwise
distinct offsets, each component lying in `[-0.5, 0.5] * scale`; and the
257th call applies the same offset as the 1st. -/
theorem c3_jitter_sequence (s : ℝ) (hs : 0 < s) :
    (jitterIter s 0).r2Sequence = [] ∧
    (∀ n, 1 ≤ n → (jitterIter s n).r2Sequence = fullSeq) ∧
    (∀ n, (jitterIter s n).pointsIndex = n % 256) ∧
    (jitterOffsets s 256).Nodup ∧
    (∀ o ∈ jitterOffsets s 256, ∃ x y, o = some (x, y) ∧
      -(0.5 * s) ≤ x ∧ x ≤ 0.5 * s ∧ -(0.5 * s) ≤ y ∧ y ≤ 0.5 * s) ∧
    (jitterIter s 257).cameraOffset = (jitterIter s 1).cameraOffset := by
  refine ⟨rfl, ?_, ?_, ?_, ?_, ?_⟩
  · intro n hn
    rw [jitterIter_closed s n hn]
  · intro n
    rcases Nat.eq_zero_or_pos n with rfl | hpos
    · rfl
    · rw [jitterIter_closed s n hpos]
  · rw [jitterIter_closed_offsets]
    refine List.Nodup.map_on ?_ (List.nodup_range 256)
    intro k hk k' hk' heq
    simp only [List.mem_range] at hk hk'
    simp only [Option.some.injEq, Prod.mk.injEq] at heq
    have := r2Point_scaled_inj (ne_of_gt hs) heq.1
    omega
  · intro o ho
    rw [jitterIter_closed_offsets] at ho
    simp only [List.mem_map, List.mem_range] at ho
    obtain ⟨k, _, rfl⟩ := ho
    refine ⟨_, _, rfl, ?_, ?_, ?_, ?_⟩ <;>
      simp only [r2Point] <;>
      nlinarith [Int.fract_nonneg ((((k + 1) % 256 : Nat) : ℝ) * a1),
        Int.fract_lt_one ((((k + 1) % 256 : Nat) : ℝ) * a1),
        Int.fract_nonneg ((((k + 1) % 256 : Nat) : ℝ) * a2),
        Int.fract_lt_one ((((k + 1) % 256 : Nat) : ℝ) * a2), hs]
  · rw [jitterIter_closed s 257 (by omega), jitterIter_closed s 1 (by omega)]

/-- Witness for C3 at `scale = 1`. -/
theorem c3_jitter_sequence_witness :
    (0 : ℝ) < 1 ∧
    ((jitterIter 1 0).r2Sequence = [] ∧
    (∀ n, 1 ≤ n → (jitterIter 1 n).r2Sequence = fullSeq) ∧
    (∀ n, (jitterIter (1 : ℝ) n).pointsIndex = n % 256) ∧
    (jitterOffsets 1 256).Nodup ∧
    (∀ o ∈ jitterOffsets 1 256, ∃ x y, o = some (x, y) ∧
      -((0.5 : ℝ) * 1) ≤ x ∧ x ≤ 0.5 * 1 ∧ -((0.5 : ℝ) * 1) ≤ y ∧ y ≤ 0.5 * 1) ∧
    (jitterIter 1 257).cameraOffset = (jitterIter 1 1).cameraOffset) :=
  ⟨zero_lt_one, c3_jitter_sequence 1 zero_lt_one⟩
